import Mathlib

/-!
Shallow embedding of the password-hashing core of the veterinary_diagnostics
repository: the `Argon2Hasher` class (PHC-string encoding, parsing,
constant-time comparison, rehash policy) and the `Credential` domain entity
(validation and state transitions).

Bytes are modelled as `Nat` values below 256; Java `String`s as `List Char`;
Java exceptions as `Except`; `java.time.Instant` as `Nat`; nullable fields as
`Option`. The Argon2id key-derivation function itself is an external library
call (Bouncy Castle), so it is a parameter `kdf` of the operations that use
it; its contract (the output fills a buffer of the requested length with
bytes) appears as hypotheses where needed.
-/

namespace Argon2Hasher

/-- Errors thrown by `parseHash` and its helpers: Java's
`ArrayIndexOutOfBoundsException` / `StringIndexOutOfBoundsException`,
`NumberFormatException`, and the `IllegalArgumentException` from Base64
decoding. -/
inductive ParseErr where
  | indexOutOfBounds : ParseErr
  | numberFormat : ParseErr
  | badBase64 : ParseErr
deriving DecidableEq

/-- The `Argon2Parameters` built in `parseHash` via the Bouncy Castle builder:
`withSalt`, `withIterations`, `withMemoryAsKB`, `withParallelism`. -/
structure Argon2Params where
  salt : List Nat
  iterations : Int
  memory : Int
  parallelism : Int
deriving DecidableEq

/-- The private record `HashComponents(int iterations, int memory,
int parallelism, Argon2Parameters params, byte[] hash)`, with its fields in
the declared order. -/
structure HashComponents where
  iterations : Int
  memory : Int
  parallelism : Int
  params : Argon2Params
  hash : List Nat
deriving DecidableEq

/-- Policy constant `ITERATIONS = 3`. -/
def ITERATIONS : Int := 3

/-- Policy constant `MEMORY = 65536` (KB). -/
def MEMORY : Int := 65536

/-- Policy constant `PARALLELISM = 4`. -/
def PARALLELISM : Int := 4

/-- Policy constant `HASH_LENGTH = 32` (bytes). -/
def HASH_LENGTH : Nat := 32

/-- Policy constant `SALT_LENGTH = 16` (bytes). -/
def SALT_LENGTH : Nat := 16

/-- Character for one base64 sextet, standard alphabet
(`A-Z`, `a-z`, `0-9`, `+`, `/`), as used by `java.util.Base64.getEncoder()`. -/
def sextetChar (n : Nat) : Char :=
  if n < 26 then Char.ofNat (65 + n)
  else if n < 52 then Char.ofNat (71 + n)
  else if n < 62 then Char.ofNat (n - 4)
  else if n = 62 then '+'
  else '/'

/-- Sextet value of one character of the standard base64 alphabet, `none` for
characters outside the alphabet (Java's decoder throws on those). -/
def charSextet (c : Char) : Option Nat :=
  if 65 ≤ c.toNat ∧ c.toNat ≤ 90 then some (c.toNat - 65)
  else if 97 ≤ c.toNat ∧ c.toNat ≤ 122 then some (c.toNat - 71)
  else if 48 ≤ c.toNat ∧ c.toNat ≤ 57 then some (c.toNat + 4)
  else if c.toNat = 43 then some 62
  else if c.toNat = 47 then some 63
  else none

/-- Byte groups to sextet groups: each 3 input bytes give 4 sextets, a
leftover of 1 or 2 bytes gives 2 or 3 sextets (unpadded encoding). -/
def b64EncodeSextets : List Nat → List Nat
  | [] => []
  | [a] => [a / 4, a % 4 * 16]
  | [a, b] => [a / 4, a % 4 * 16 + b / 16, b % 16 * 4]
  | a :: b :: c :: rest =>
    a / 4 :: (a % 4 * 16 + b / 16) :: (b % 16 * 4 + c / 64) :: c % 64 ::
      b64EncodeSextets rest

/-- The output of `Base64.getEncoder().withoutPadding().encodeToString` on a
byte array, as a character list. -/
def b64Encode (bytes : List Nat) : List Char :=
  (b64EncodeSextets bytes).map sextetChar

/-- Sextet groups back to bytes: each 4 sextets give 3 bytes, a leftover of
2 or 3 sextets gives 1 or 2 bytes (dangling low bits are dropped, as in
Java's decoder). -/
def b64DecodeSextets : List Nat → List Nat
  | [] => []
  | [_] => []
  | [a, b] => [a * 4 + b / 16]
  | [a, b, c] => [a * 4 + b / 16, b % 16 * 16 + c / 4]
  | a :: b :: c :: d :: rest =>
    (a * 4 + b / 16) :: (b % 16 * 16 + c / 4) :: (c % 4 * 64 + d) ::
      b64DecodeSextets rest

/-- Map `charSextet` over a character list, failing on the first character
outside the base64 alphabet. -/
def mapCharSextets : List Char → Option (List Nat)
  | [] => some []
  | c :: cs =>
    match charSextet c, mapCharSextets cs with
    | some s, some ss => some (s :: ss)
    | _, _ => none

/-- The behaviour of `Base64.getDecoder().decode(String)`: accepts the
unpadded and the correctly padded variant, rejects characters outside the
alphabet, misplaced padding, and a dangling single sextet. -/
def b64Decode (l : List Char) : Option (List Nat) :=
  let pad := (l.reverse.takeWhile (fun c => c = '=')).length
  let body := l.take (l.length - pad)
  if 2 < pad then none
  else if body.any (fun c => c = '=') then none
  else if 0 < pad ∧ l.length % 4 ≠ 0 then none
  else
    match mapCharSextets body with
    | none => none
    | some ss => if ss.length % 4 = 1 then none else some (b64DecodeSextets ss)

/-- Decimal digits of a positive number, most significant first, with fuel
(the number itself suffices as fuel). -/
def natDigitsAux : Nat → Nat → List Nat
  | 0, _ => []
  | _ + 1, 0 => []
  | fuel + 1, n + 1 => natDigitsAux fuel ((n + 1) / 10) ++ [(n + 1) % 10]

/-- Decimal rendering of a natural number, as `String.format("%d", n)`
produces it. -/
def natToChars (n : Nat) : List Char :=
  if n = 0 then ['0']
  else (natDigitsAux n n).map (fun d => Char.ofNat (48 + d))

/-- Digit test used by the model of `Integer.parseInt`. -/
def isDigitCh (c : Char) : Bool :=
  decide (48 ≤ c.toNat) && decide (c.toNat ≤ 57)

/-- Value of a non-empty all-digit character list. -/
def parseDigits (l : List Char) : Option Nat :=
  if l = [] then none
  else if l.all isDigitCh then
    some (l.foldl (fun a c => a * 10 + (c.toNat - 48)) 0)
  else none

/-- The behaviour of `Integer.parseInt`: optional sign, decimal digits,
failure on empty input, non-digit characters, or 32-bit overflow. -/
def parseIntJava : List Char → Option Int
  | [] => none
  | c :: rest =>
    if c = '-' then
      (parseDigits rest).bind fun n =>
        if n ≤ 2147483648 then some (-(n : Int)) else none
    else if c = '+' then
      (parseDigits rest).bind fun n =>
        if n < 2147483648 then some ((n : Int)) else none
    else
      (parseDigits (c :: rest)).bind fun n =>
        if n < 2147483648 then some ((n : Int)) else none

/-- Split a character list at every occurrence of `sep`, keeping empty
pieces (the raw split underlying `String.split`). -/
def splitCh (sep : Char) : List Char → List (List Char)
  | [] => [[]]
  | c :: cs =>
    match splitCh sep cs with
    | [] => [[]]
    | t :: ts => if c = sep then [] :: t :: ts else (c :: t) :: ts

/-- Remove trailing empty pieces, as `java.lang.String.split` does. -/
def dropTrailingEmpties (ls : List (List Char)) : List (List Char) :=
  (ls.reverse.dropWhile (fun t => t.isEmpty)).reverse

/-- The behaviour of `java.lang.String.split` with a single-character
regex: trailing empty strings removed; the whole input returned when the
separator does not occur. -/
def javaSplit (sep : Char) (l : List Char) : List (List Char) :=
  if sep ∈ l then dropTrailingEmpties (splitCh sep l) else [l]

/-- Array access `xs[i]`, throwing `ArrayIndexOutOfBoundsException` past the
end. -/
def arrGet {α : Type} (xs : List α) (i : Nat) : Except ParseErr α :=
  match xs.get? i with
  | some v => Except.ok v
  | none => Except.error ParseErr.indexOutOfBounds

/-- Java `s.substring(i)`, throwing `StringIndexOutOfBoundsException` when
`i` exceeds the length. -/
def substring (l : List Char) (i : Nat) : Except ParseErr (List Char) :=
  if i ≤ l.length then Except.ok (l.drop i) else Except.error ParseErr.indexOutOfBounds

/-- Lift `parseIntJava` into the exception monad (`NumberFormatException`). -/
def parseIntE (l : List Char) : Except ParseErr Int :=
  match parseIntJava l with
  | some v => Except.ok v
  | none => Except.error ParseErr.numberFormat

/-- Lift `b64Decode` into the exception monad (`IllegalArgumentException`). -/
def b64DecodeE (l : List Char) : Except ParseErr (List Nat) :=
  match b64Decode l with
  | some bs => Except.ok bs
  | none => Except.error ParseErr.badBase64

/-- Model of `Argon2Hasher.parseHash`: split on `$`, split `parts[3]` on
commas, take `substring(2)` of each token and parse it, base64-decode
`parts[4]` and `parts[5]`, build the `Argon2Parameters`, and construct the
`HashComponents` record positionally, exactly as the source does with
`new HashComponents(memory, iterations, parallelism, params, hash)`. -/
def parseHash (encodedHash : List Char) : Except ParseErr HashComponents := do
  let parts := javaSplit '$' encodedHash
  let paramField ← arrGet parts 3
  let paramTokens := javaSplit ',' paramField
  let tok0 ← arrGet paramTokens 0
  let sub0 ← substring tok0 2
  let memory ← parseIntE sub0
  let tok1 ← arrGet paramTokens 1
  let sub1 ← substring tok1 2
  let iterations ← parseIntE sub1
  let tok2 ← arrGet paramTokens 2
  let sub2 ← substring tok2 2
  let parallelism ← parseIntE sub2
  let saltSeg ← arrGet parts 4
  let salt ← b64DecodeE saltSeg
  let hashSeg ← arrGet parts 5
  let hashBytes ← b64DecodeE hashSeg
  let params : Argon2Params := ⟨salt, iterations, memory, parallelism⟩
  return HashComponents.mk memory iterations parallelism params hashBytes

/-- The PHC string scheme produced by the source's
`String.format("$argon2id$v=%d$m=%d,t=%d,p=%d$%s$%s", ...)`, abstracted over
the four numeric arguments. -/
def mkPhc (version memoryKB iterations parallelism : Nat)
    (salt hashBytes : List Nat) : List Char :=
  ['$'] ++ "argon2id".data ++
  ['$'] ++ ("v=".data ++ natToChars version) ++
  ['$'] ++ ("m=".data ++ natToChars memoryKB ++ [','] ++
            "t=".data ++ natToChars iterations ++ [','] ++
            "p=".data ++ natToChars parallelism) ++
  ['$'] ++ b64Encode salt ++
  ['$'] ++ b64Encode hashBytes

/-- Model of `Argon2Hasher.encodeHash`: formats the version constant
`ARGON2_VERSION_13 = 19` and the current policy constants
`MEMORY = 65536`, `ITERATIONS = 3`, `PARALLELISM = 4` around the unpadded
base64 of salt and hash. -/
def encodeHash (salt hashBytes : List Nat) : List Char :=
  mkPhc 19 65536 3 4 salt hashBytes

/-- Model of `Argon2Hasher.constantTimeEquals`: length check first, then one
pass accumulating the bitwise OR of the XOR of every byte pair. -/
def constantTimeEquals (expected actual : List Nat) : Bool :=
  if expected.length ≠ actual.length then false
  else
    ((expected.zip actual).foldl (fun result p => result ||| (p.1 ^^^ p.2)) 0) == 0

/-- Model of `Argon2Hasher.verify`: parse the stored hash, re-derive a key of
the stored hash's length with the parsed `Argon2Parameters`, and compare in
constant time. The Argon2id generator is the parameter `kdf`. -/
def verify (kdf : Argon2Params → List Char → Nat → List Nat)
    (encodedHash password : List Char) : Except ParseErr Bool :=
  match parseHash encodedHash with
  | Except.error e => Except.error e
  | Except.ok components =>
    let actualHash := kdf components.params password components.hash.length
    Except.ok (constantTimeEquals components.hash actualHash)

/-- Model of `Argon2Hasher.hash` with the random salt made explicit: derive
`HASH_LENGTH` bytes under the current policy constants and encode. -/
def hash (kdf : Argon2Params → List Char → Nat → List Nat)
    (salt : List Nat) (password : List Char) : List Char :=
  encodeHash salt
    (kdf ⟨salt, ITERATIONS, MEMORY, PARALLELISM⟩ password HASH_LENGTH)

/-- Model of `Argon2Hasher.needsRehash`: parse, then compare the record's
`memory`, `iterations` and `parallelism` fields against the policy
constants. -/
def needsRehash (encodedHash : List Char) : Except ParseErr Bool :=
  match parseHash encodedHash with
  | Except.error e => Except.error e
  | Except.ok components =>
    Except.ok (components.memory != MEMORY
      || components.iterations != ITERATIONS
      || components.parallelism != PARALLELISM)

/-- The parameter segment `m=<m>,t=<t>,p=<p>` of the PHC string. -/
def paramSeg (m t p : Nat) : List Char :=
  "m=".data ++ natToChars m ++ [','] ++
  "t=".data ++ natToChars t ++ [','] ++
  "p=".data ++ natToChars p

/-- Modelled from the spec: a cost-parameter token is non-numeric when it is
too short for the two-character `m=` / `t=` / `p=` key prefix or when the
remainder after that prefix is not a parseable integer. -/
def tokenNonNumeric (tok : List Char) : Prop :=
  tok.length < 2 ∨ parseIntJava (tok.drop 2) = none

/-- Modelled from the spec: a structurally malformed encoded-hash string —
fewer than six `$`-separated segments (after Java's split, which drops
trailing empty segments), fewer than three comma-separated cost tokens, a
non-numeric cost parameter, or invalid base64 in the salt or hash segment. -/
def specMalformed (s : List Char) : Prop :=
  (javaSplit '$' s).length < 6 ∨
  (javaSplit ',' ((javaSplit '$' s).getD 3 [])).length < 3 ∨
  tokenNonNumeric ((javaSplit ',' ((javaSplit '$' s).getD 3 [])).getD 0 []) ∨
  tokenNonNumeric ((javaSplit ',' ((javaSplit '$' s).getD 3 [])).getD 1 []) ∨
  tokenNonNumeric ((javaSplit ',' ((javaSplit '$' s).getD 3 [])).getD 2 []) ∨
  b64Decode ((javaSplit '$' s).getD 4 []) = none ∨
  b64Decode ((javaSplit '$' s).getD 5 []) = none

end Argon2Hasher

/-- Model of `java.time.Instant` as a point on a discrete time line. The
impure `Instant.now()` calls of the source become explicit `now` arguments
of the transition methods. -/
abbrev Instant := Nat

/-- Model of the UUIDv7 identifiers supplied by the identity-provisioning
layer. -/
abbrev UUID := Nat

/-- The `AuthProvider` enum: `LOCAL`, `GOOGLE`, `AZUREAD`, `APPLE`. -/
inductive AuthProvider where
  | LOCAL : AuthProvider
  | GOOGLE : AuthProvider
  | AZUREAD : AuthProvider
  | APPLE : AuthProvider
deriving DecidableEq

/-- The `CredentialStatus` enum: `ACTIVE`, `SUSPENDED`, `DELETED`. -/
inductive CredentialStatus where
  | ACTIVE : CredentialStatus
  | SUSPENDED : CredentialStatus
  | DELETED : CredentialStatus
deriving DecidableEq

/-- The immutable `Credential` entity, with nullable Java fields as
`Option`. The Lombok builder is the plain structure constructor, which (as
in the source) enforces nothing. -/
structure Credential where
  id : Option UUID
  email : Option String
  passwordHash : Option String
  authProvider : AuthProvider
  authSubject : Option String
  mfaEnabled : Bool
  status : CredentialStatus
  emailVerifiedAt : Option Instant
  lastLoginAt : Option Instant
  createdAt : Option Instant
  updatedAt : Option Instant
  deletedAt : Option Instant
deriving DecidableEq

namespace Credential

/-- Java `String.isBlank`: empty or whitespace only. -/
def isBlank (s : String) : Bool :=
  s.data.all (fun c => c == ' ' || c == '\t' || c == '\n' || c == '\r')

/-- A nullable string that is `null` or blank; `validate` rejects such a
password hash for LOCAL credentials and such an auth subject for OAuth
credentials. -/
def absentOrBlank : Option String → Bool
  | none => true
  | some s => isBlank s

/-- Model of `Credential.validate()`: the explicit, caller-invoked invariant
check, mirroring the source's check order; the messages are the source's
exception messages. -/
def validate (c : Credential) : Except String Credential :=
  match c.id with
  | none => Except.error "Credential ID cannot be null"
  | some _ =>
    match c.email with
    | none => Except.error "Email cannot be null"
    | some e =>
      if isBlank e then Except.error "Email cannot be blank"
      else if c.authProvider = AuthProvider.LOCAL then
        if absentOrBlank c.passwordHash then
          Except.error "Password hash is required for LOCAL authentication"
        else Except.ok c
      else
        if absentOrBlank c.authSubject then
          Except.error "Auth subject is required for OAuth authentication"
        else Except.ok c

/-- Model of `Credential.canLogin()`: status is `ACTIVE` and `deletedAt` is
absent. -/
def canLogin (c : Credential) : Bool :=
  decide (c.status = CredentialStatus.ACTIVE) && decide (c.deletedAt = none)

/-- Model of `Credential.isEmailVerified()`. -/
def isEmailVerified (c : Credential) : Bool :=
  decide (c.emailVerifiedAt ≠ none)

/-- Model of `Credential.isLocalAuth()`. -/
def isLocalAuth (c : Credential) : Bool :=
  decide (c.authProvider = AuthProvider.LOCAL)

/-- Model of `Credential.withLastLogin(Instant)`: copy with the login
timestamp set and `updatedAt` bumped to `now`. -/
def withLastLogin (c : Credential) (loginTime now : Instant) : Credential :=
  { c with lastLoginAt := some loginTime, updatedAt := some now }

/-- Model of `Credential.withVerifiedEmail()`. -/
def withVerifiedEmail (c : Credential) (now : Instant) : Credential :=
  { c with emailVerifiedAt := some now, updatedAt := some now }

/-- Model of `Credential.withPasswordHash(String)`: copy with the new hash
and `updatedAt` bumped; no validation is performed. -/
def withPasswordHash (c : Credential) (newPasswordHash : Option String)
    (now : Instant) : Credential :=
  { c with passwordHash := newPasswordHash, updatedAt := some now }

/-- Model of `Credential.asSuspended()`. -/
def asSuspended (c : Credential) (now : Instant) : Credential :=
  { c with status := CredentialStatus.SUSPENDED, updatedAt := some now }

/-- Model of `Credential.asSoftDeleted()`: status to `DELETED`, `deletedAt`
and `updatedAt` set to `now`. -/
def asSoftDeleted (c : Credential) (now : Instant) : Credential :=
  { c with status := CredentialStatus.DELETED, deletedAt := some now,
           updatedAt := some now }

/-- Model of `Credential.asReactivated()`: status to `ACTIVE`, `deletedAt`
cleared, `updatedAt` bumped. -/
def asReactivated (c : Credential) (now : Instant) : Credential :=
  { c with status := CredentialStatus.ACTIVE, deletedAt := none,
           updatedAt := some now }

end Credential

/-- A concrete, valid local credential used when evaluating the model on
specific inputs. -/
def sampleLocalCredential : Credential :=
  { id := some 1
    email := some "user@example.com"
    passwordHash := some "$argon2id$v=19$m=65536,t=3,p=4$AAAA$AQID"
    authProvider := AuthProvider.LOCAL
    authSubject := none
    mfaEnabled := false
    status := CredentialStatus.ACTIVE
    emailVerifiedAt := none
    lastLoginAt := none
    createdAt := some 0
    updatedAt := some 0
    deletedAt := none }

namespace Argon2Hasher

theorem charSextet_sextetChar : ∀ n, n < 64 → charSextet (sextetChar n) = some n := by
  decide

theorem sextetChar_ne_dollar : ∀ n, n < 64 → sextetChar n ≠ '$' := by
  decide

theorem sextetChar_ne_eq : ∀ n, n < 64 → sextetChar n ≠ '=' := by
  decide

theorem digitChar_toNat : ∀ d, d < 10 → (Char.ofNat (48 + d)).toNat = 48 + d := by
  decide

theorem lor_eq_zero (a b : Nat) : a ||| b = 0 ↔ a = 0 ∧ b = 0 := by
  constructor
  · intro h
    have hab : ∀ i, a.testBit i = false ∧ b.testBit i = false := by
      intro i
      have := congrArg (fun x => Nat.testBit x i) h
      simp [Nat.testBit_or] at this
      exact this
    constructor
    · exact Nat.eq_of_testBit_eq (fun i => by simp [(hab i).1])
    · exact Nat.eq_of_testBit_eq (fun i => by simp [(hab i).2])
  · rintro ⟨rfl, rfl⟩; rfl

theorem foldl_or_eq_zero (l : List (Nat × Nat)) :
    ∀ acc, (l.foldl (fun result p => result ||| (p.1 ^^^ p.2)) acc = 0 ↔
      acc = 0 ∧ ∀ p ∈ l, p.1 = p.2) := by
  induction l with
  | nil => intro acc; simp
  | cons q l ih =>
    intro acc
    rw [List.foldl_cons, ih]
    rw [lor_eq_zero, Nat.xor_eq_zero]
    constructor
    · rintro ⟨⟨h1, h2⟩, h3⟩
      exact ⟨h1, by simpa [h2] using h3⟩
    · rintro ⟨h1, h2⟩
      exact ⟨⟨h1, h2 q (by simp)⟩, fun p hp => h2 p (by simp [hp])⟩

theorem mem_zip_self (l : List Nat) : ∀ p ∈ l.zip l, p.1 = p.2 := by
  induction l with
  | nil => simp
  | cons x xs ih =>
    intro p hp
    simp only [List.zip_cons_cons, List.mem_cons] at hp
    rcases hp with rfl | hp
    · rfl
    · exact ih p hp

theorem zip_pairs_eq (e : List Nat) :
    ∀ a : List Nat, e.length = a.length →
      ((∀ p ∈ e.zip a, p.1 = p.2) ↔ e = a) := by
  induction e with
  | nil =>
    intro a hl
    cases a
    · simp
    · simp at hl
  | cons x xs ih =>
    intro a hl
    cases a with
    | nil => simp at hl
    | cons y ys =>
      simp only [List.zip_cons_cons, List.mem_cons, List.cons.injEq]
      constructor
      · intro h
        refine ⟨h (x, y) (Or.inl rfl), ?_⟩
        exact (ih ys (by simpa using hl)).mp (fun p hp => h p (Or.inr hp))
      · rintro ⟨rfl, rfl⟩
        rintro p (rfl | hp)
        · rfl
        · exact mem_zip_self xs p hp

theorem constantTimeEquals_eq_true_iff (e a : List Nat) :
    constantTimeEquals e a = true ↔ e = a := by
  unfold constantTimeEquals
  by_cases h : e.length = a.length
  · rw [if_neg (by simp [h])]
    rw [beq_iff_eq, foldl_or_eq_zero, zip_pairs_eq e a h]
    simp
  · rw [if_pos (by simpa using h)]
    simp only [Bool.false_eq_true, false_iff]
    intro he
    exact h (by rw [he])

theorem constantTimeEquals_self (l : List Nat) : constantTimeEquals l l = true :=
  (constantTimeEquals_eq_true_iff l l).mpr rfl

theorem natDigitsAux_lt_ten :
    ∀ fuel n, ∀ d ∈ natDigitsAux fuel n, d < 10 := by
  intro fuel
  induction fuel with
  | zero => intro n d hd; simp [natDigitsAux] at hd
  | succ fuel ih =>
    intro n d hd
    cases n with
    | zero => simp [natDigitsAux] at hd
    | succ m =>
      rw [natDigitsAux] at hd
      rcases List.mem_append.mp hd with hd | hd
      · exact ih _ d hd
      · simp at hd
        omega

theorem natDigitsAux_foldl :
    ∀ fuel n acc, n ≤ fuel →
      (natDigitsAux fuel n).foldl (fun a d => a * 10 + d) acc =
        acc * 10 ^ (natDigitsAux fuel n).length + n := by
  intro fuel
  induction fuel with
  | zero =>
    intro n acc hn
    interval_cases n
    simp [natDigitsAux]
  | succ fuel ih =>
    intro n acc hn
    cases n with
    | zero => simp [natDigitsAux]
    | succ m =>
      rw [natDigitsAux, List.foldl_append, List.length_append]
      have hrec : (m + 1) / 10 ≤ fuel := by omega
      rw [ih ((m + 1) / 10) acc hrec]
      simp only [List.foldl_cons, List.foldl_nil, List.length_cons,
        List.length_nil]
      rw [pow_succ]
      have := Nat.div_add_mod (m + 1) 10
      ring_nf
      omega

theorem natDigitsAux_ne_nil (m : Nat) :
    natDigitsAux (m + 1) (m + 1) ≠ [] := by
  rw [natDigitsAux]
  intro h
  simpa using congrArg List.length h

theorem natToChars_toNat (n : Nat) :
    ∀ c ∈ natToChars n, 48 ≤ c.toNat ∧ c.toNat ≤ 57 := by
  intro c hc
  unfold natToChars at hc
  by_cases h : n = 0
  · rw [if_pos h] at hc
    simp at hc
    subst hc
    decide
  · rw [if_neg h] at hc
    rcases List.mem_map.mp hc with ⟨d, hd, rfl⟩
    have hd10 := natDigitsAux_lt_ten n n d hd
    rw [digitChar_toNat d hd10]
    omega

theorem natToChars_ne_nil (n : Nat) : natToChars n ≠ [] := by
  unfold natToChars
  by_cases h : n = 0
  · rw [if_pos h]; simp
  · rw [if_neg h]
    obtain ⟨m, rfl⟩ := Nat.exists_eq_succ_of_ne_zero h
    intro hmap
    exact natDigitsAux_ne_nil m (List.map_eq_nil_iff.mp hmap)

theorem foldl_digit_chars (L : List Nat) :
    ∀ acc, (∀ d ∈ L, d < 10) →
      ((L.map (fun d => Char.ofNat (48 + d))).foldl
        (fun a c => a * 10 + (c.toNat - 48)) acc) =
      L.foldl (fun a d => a * 10 + d) acc := by
  induction L with
  | nil => intro acc _; rfl
  | cons d L ih =>
    intro acc hL
    simp only [List.map_cons, List.foldl_cons]
    rw [digitChar_toNat d (hL d (by simp))]
    have : 48 + d - 48 = d := by omega
    rw [this]
    exact ih _ (fun x hx => hL x (by simp [hx]))

theorem parseDigits_natToChars (n : Nat) : parseDigits (natToChars n) = some n := by
  unfold parseDigits
  rw [if_neg (natToChars_ne_nil n)]
  have hall : (natToChars n).all isDigitCh = true := by
    rw [List.all_eq_true]
    intro c hc
    have := natToChars_toNat n c hc
    unfold isDigitCh
    simp only [Bool.and_eq_true, decide_eq_true_eq]
    exact this
  rw [if_pos hall]
  congr 1
  unfold natToChars
  by_cases h : n = 0
  · subst h; rfl
  · rw [if_neg h]
    rw [foldl_digit_chars _ _ (natDigitsAux_lt_ten n n)]
    rw [natDigitsAux_foldl n n 0 (le_refl n)]
    simp

theorem parseIntJava_natToChars (n : Nat) (hn : n < 2147483648) :
    parseIntJava (natToChars n) = some (Int.ofNat n) := by
  obtain ⟨c, rest, hcr⟩ : ∃ c rest, natToChars n = c :: rest := by
    cases h : natToChars n with
    | nil => exact absurd h (natToChars_ne_nil n)
    | cons c rest => exact ⟨c, rest, rfl⟩
  have hc : 48 ≤ c.toNat ∧ c.toNat ≤ 57 :=
    natToChars_toNat n c (by rw [hcr]; simp)
  rw [hcr]
  simp only [parseIntJava]
  rw [if_neg (by intro h; rw [h] at hc; revert hc; decide)]
  rw [if_neg (by intro h; rw [h] at hc; revert hc; decide)]
  rw [← hcr, parseDigits_natToChars]
  simp [hn]

theorem parseIntE_natToChars (n : Nat) (hn : n < 2147483648) :
    parseIntE (natToChars n) = Except.ok (Int.ofNat n) := by
  unfold parseIntE
  rw [parseIntJava_natToChars n hn]

theorem splitCh_ne_nil (sep : Char) (l : List Char) : splitCh sep l ≠ [] := by
  cases l with
  | nil => simp [splitCh]
  | cons c cs =>
    rw [splitCh]
    cases h : splitCh sep cs with
    | nil => simp
    | cons t ts =>
      by_cases hc : c = sep
      · simp [hc]
      · simp [hc]

theorem splitCh_sep_cons (sep : Char) (l : List Char) :
    splitCh sep (sep :: l) = [] :: splitCh sep l := by
  rw [splitCh]
  cases h : splitCh sep l with
  | nil => exact absurd h (splitCh_ne_nil sep l)
  | cons t ts => simp

theorem splitCh_no_sep (sep : Char) (l : List Char) (h : sep ∉ l) :
    splitCh sep l = [l] := by
  induction l with
  | nil => rfl
  | cons c cs ih =>
    have hc : c ≠ sep := fun hcc => h (by simp [hcc])
    have hcs : sep ∉ cs := fun hss => h (by simp [hss])
    rw [splitCh, ih hcs]
    simp [hc]

theorem splitCh_append_sep (sep : Char) (l1 l2 : List Char) (h : sep ∉ l1) :
    splitCh sep (l1 ++ sep :: l2) = l1 :: splitCh sep l2 := by
  induction l1 with
  | nil => simpa using splitCh_sep_cons sep l2
  | cons c cs ih =>
    have hc : c ≠ sep := fun hcc => h (by simp [hcc])
    have hcs : sep ∉ cs := fun hss => h (by simp [hss])
    simp only [List.cons_append]
    rw [splitCh, ih hcs]
    simp [hc]

theorem dropTrailingEmpties_last_ne (ls : List (List Char)) (t : List Char)
    (h : t ≠ []) : dropTrailingEmpties (ls ++ [t]) = ls ++ [t] := by
  unfold dropTrailingEmpties
  rw [List.reverse_append]
  simp only [List.reverse_cons, List.reverse_nil, List.nil_append,
    List.cons_append, List.dropWhile_cons]
  have ht : t.isEmpty = false := by
    cases t with
    | nil => exact absurd rfl h
    | cons x xs => rfl
  rw [ht]
  simp

theorem b64EncodeSextets_lt (bs : List Nat) (h : ∀ b ∈ bs, b < 256) :
    ∀ s ∈ b64EncodeSextets bs, s < 64 := by
  induction bs using b64EncodeSextets.induct with
  | case1 => simp [b64EncodeSextets]
  | case2 a =>
    have ha := h a (by simp)
    simp only [b64EncodeSextets, List.mem_cons]
    rintro s (rfl | rfl | hs)
    · omega
    · omega
    · simp at hs
  | case3 a b =>
    have ha := h a (by simp)
    have hb := h b (by simp)
    simp only [b64EncodeSextets, List.mem_cons]
    rintro s (rfl | rfl | rfl | hs)
    · omega
    · omega
    · omega
    · simp at hs
  | case4 a b c rest ih =>
    have ha := h a (by simp)
    have hb := h b (by simp)
    have hc := h c (by simp)
    have hrest : ∀ x ∈ rest, x < 256 := fun x hx => h x (by simp [hx])
    simp only [b64EncodeSextets, List.mem_cons]
    rintro s (rfl | rfl | rfl | rfl | hs)
    · omega
    · omega
    · omega
    · omega
    · exact ih hrest s hs

theorem b64EncodeSextets_len_mod (bs : List Nat) :
    (b64EncodeSextets bs).length % 4 ≠ 1 := by
  induction bs using b64EncodeSextets.induct with
  | case1 => simp [b64EncodeSextets]
  | case2 a => simp [b64EncodeSextets]
  | case3 a b => simp [b64EncodeSextets]
  | case4 a b c rest ih =>
    simp only [b64EncodeSextets, List.length_cons]
    omega

theorem b64DecodeSextets_encode (bs : List Nat) (h : ∀ b ∈ bs, b < 256) :
    b64DecodeSextets (b64EncodeSextets bs) = bs := by
  induction bs using b64EncodeSextets.induct with
  | case1 => rfl
  | case2 a =>
    have ha := h a (by simp)
    simp only [b64EncodeSextets, b64DecodeSextets]
    congr 1
    omega
  | case3 a b =>
    have ha := h a (by simp)
    have hb := h b (by simp)
    simp only [b64EncodeSextets, b64DecodeSextets]
    congr 1
    · omega
    · congr 1
      omega
  | case4 a b c rest ih =>
    have ha := h a (by simp)
    have hb := h b (by simp)
    have hc := h c (by simp)
    have hrest : ∀ x ∈ rest, x < 256 := fun x hx => h x (by simp [hx])
    have hlen := b64EncodeSextets_len_mod rest
    cases henc : b64EncodeSextets rest with
    | nil =>
      simp only [b64EncodeSextets, henc, b64DecodeSextets]
      rw [henc] at ih
      have := ih hrest
      simp only [b64DecodeSextets] at this
      rw [← this]
      congr 1
      · omega
      · congr 1
        · omega
        · congr 1
          omega
    | cons s0 ss =>
      simp only [b64EncodeSextets, henc, b64DecodeSextets]
      rw [henc] at ih
      have := ih hrest
      rw [← this]
      congr 1
      · omega
      · congr 1
        · omega
        · congr 1
          omega

theorem mapCharSextets_map (ss : List Nat) (h : ∀ s ∈ ss, s < 64) :
    mapCharSextets (ss.map sextetChar) = some ss := by
  induction ss with
  | nil => rfl
  | cons s ss ih =>
    simp only [List.map_cons, mapCharSextets]
    rw [charSextet_sextetChar s (h s (by simp)),
      ih (fun x hx => h x (by simp [hx]))]

theorem b64Encode_no_dollar (bs : List Nat) (h : ∀ b ∈ bs, b < 256) :
    '$' ∉ b64Encode bs := by
  unfold b64Encode
  intro hc
  rcases List.mem_map.mp hc with ⟨s, hs, heq⟩
  exact sextetChar_ne_dollar s (b64EncodeSextets_lt bs h s hs) heq

theorem b64Encode_no_eq (bs : List Nat) (h : ∀ b ∈ bs, b < 256) :
    ∀ c ∈ b64Encode bs, c ≠ '=' := by
  intro c hc
  rcases List.mem_map.mp hc with ⟨s, hs, heq⟩
  rw [← heq]
  exact sextetChar_ne_eq s (b64EncodeSextets_lt bs h s hs)

theorem b64Encode_ne_nil (bs : List Nat) (h : bs ≠ []) : b64Encode bs ≠ [] := by
  unfold b64Encode
  intro hmap
  have := List.map_eq_nil_iff.mp hmap
  cases bs with
  | nil => exact h rfl
  | cons a rest =>
    cases rest with
    | nil => simp [b64EncodeSextets] at this
    | cons b rest2 =>
      cases rest2 with
      | nil => simp [b64EncodeSextets] at this
      | cons c rest3 => simp [b64EncodeSextets] at this

theorem b64Decode_b64Encode (bs : List Nat) (h : ∀ b ∈ bs, b < 256) :
    b64Decode (b64Encode bs) = some bs := by
  have hnoeq := b64Encode_no_eq bs h
  have hpad : ((b64Encode bs).reverse.takeWhile (fun c => c = '=')).length = 0 := by
    cases hr : (b64Encode bs).reverse with
    | nil => simp
    | cons c cs =>
      have hcmem : c ∈ b64Encode bs := by
        rw [← List.mem_reverse, hr]; simp
      rw [List.takeWhile_cons, decide_eq_false (hnoeq c hcmem)]
      simp
  unfold b64Decode
  simp only [hpad, Nat.sub_zero, List.take_length]
  rw [if_neg (by omega)]
  have hany : (b64Encode bs).any (fun c => decide (c = '=')) = false := by
    rw [List.any_eq_false]
    intro c hc
    simp [hnoeq c hc]
  rw [if_neg ?hc2]
  case hc2 =>
    intro hx
    rw [List.any_eq_true] at hx
    rcases hx with ⟨c, hc, hcc⟩
    simp at hcc
    exact hnoeq c hc hcc
  rw [if_neg (by simp)]
  unfold b64Encode
  rw [mapCharSextets_map _ (b64EncodeSextets_lt bs h)]
  show (if (b64EncodeSextets bs).length % 4 = 1 then none
        else some (b64DecodeSextets (b64EncodeSextets bs))) = some bs
  rw [if_neg (b64EncodeSextets_len_mod bs)]
  rw [b64DecodeSextets_encode bs h]

theorem arrGet_three {α : Type} (a0 a1 a2 a3 : α) (rest : List α) :
    arrGet (a0 :: a1 :: a2 :: a3 :: rest) 3 = Except.ok a3 := rfl

theorem arrGet_four {α : Type} (a0 a1 a2 a3 a4 : α) (rest : List α) :
    arrGet (a0 :: a1 :: a2 :: a3 :: a4 :: rest) 4 = Except.ok a4 := rfl

theorem arrGet_five {α : Type} (a0 a1 a2 a3 a4 a5 : α) (rest : List α) :
    arrGet (a0 :: a1 :: a2 :: a3 :: a4 :: a5 :: rest) 5 = Except.ok a5 := rfl

theorem arrGet_zero {α : Type} (a0 : α) (rest : List α) :
    arrGet (a0 :: rest) 0 = Except.ok a0 := rfl

theorem arrGet_one {α : Type} (a0 a1 : α) (rest : List α) :
    arrGet (a0 :: a1 :: rest) 1 = Except.ok a1 := rfl

theorem arrGet_two {α : Type} (a0 a1 a2 : α) (rest : List α) :
    arrGet (a0 :: a1 :: a2 :: rest) 2 = Except.ok a2 := rfl

theorem ok_bind {α β : Type} (a : α) (f : α → Except ParseErr β) :
    (Except.ok a >>= f) = f a := rfl

theorem substring_two (c d : Char) (l : List Char) :
    substring (c :: d :: l) 2 = Except.ok l := by
  unfold substring
  rw [if_pos (by simp)]
  rfl

theorem b64DecodeE_of_some (l : List Char) (bs : List Nat)
    (h : b64Decode l = some bs) : b64DecodeE l = Except.ok bs := by
  unfold b64DecodeE
  rw [h]

theorem dollar_not_in_natToChars (n : Nat) : '$' ∉ natToChars n := by
  intro h
  have := natToChars_toNat n '$' h
  revert this
  decide

theorem comma_not_in_natToChars (n : Nat) : ',' ∉ natToChars n := by
  intro h
  have := natToChars_toNat n ',' h
  revert this
  decide

theorem not_mem_append2 {α : Type} {c : α} {l1 l2 : List α}
    (h1 : c ∉ l1) (h2 : c ∉ l2) : c ∉ l1 ++ l2 :=
  fun h => (List.mem_append.mp h).elim h1 h2

theorem dollar_not_in_paramSeg (m t p : Nat) : '$' ∉ paramSeg m t p := by
  unfold paramSeg
  have n1 : '$' ∉ "m=".data ++ natToChars m :=
    not_mem_append2 (by decide) (dollar_not_in_natToChars m)
  have n2 := not_mem_append2 n1 (by decide : '$' ∉ [','])
  have n3 := not_mem_append2 n2 (by decide : '$' ∉ "t=".data)
  have n4 := not_mem_append2 n3 (dollar_not_in_natToChars t)
  have n5 := not_mem_append2 n4 (by decide : '$' ∉ [','])
  have n6 := not_mem_append2 n5 (by decide : '$' ∉ "p=".data)
  exact not_mem_append2 n6 (dollar_not_in_natToChars p)

theorem javaSplit_comma_paramSeg (m t p : Nat) :
    javaSplit ',' (paramSeg m t p) =
      ["m=".data ++ natToChars m, "t=".data ++ natToChars t,
       "p=".data ++ natToChars p] := by
  have hm : ',' ∉ "m=".data ++ natToChars m :=
    not_mem_append2 (by decide) (comma_not_in_natToChars m)
  have ht : ',' ∉ "t=".data ++ natToChars t :=
    not_mem_append2 (by decide) (comma_not_in_natToChars t)
  have hp : ',' ∉ "p=".data ++ natToChars p :=
    not_mem_append2 (by decide) (comma_not_in_natToChars p)
  have hshape : paramSeg m t p =
      ("m=".data ++ natToChars m) ++ ',' ::
        (("t=".data ++ natToChars t) ++ ',' ::
          ("p=".data ++ natToChars p)) := by
    unfold paramSeg
    simp [List.append_assoc]
  unfold javaSplit
  rw [if_pos (by rw [hshape]; simp)]
  rw [hshape, splitCh_append_sep _ _ _ hm, splitCh_append_sep _ _ _ ht,
    splitCh_no_sep _ _ hp]
  exact dropTrailingEmpties_last_ne
    [("m=".data ++ natToChars m), ("t=".data ++ natToChars t)]
    ("p=".data ++ natToChars p) (by simp)

theorem javaSplit_dollar_segments (s1 s2 ps s5 s6 : List Char)
    (h1 : '$' ∉ s1) (h2 : '$' ∉ s2) (hps : '$' ∉ ps)
    (h5 : '$' ∉ s5) (h6 : '$' ∉ s6) (h6ne : s6 ≠ []) :
    javaSplit '$'
      (['$'] ++ s1 ++ ['$'] ++ s2 ++ ['$'] ++ ps ++ ['$'] ++ s5 ++ ['$'] ++ s6) =
      [[], s1, s2, ps, s5, s6] := by
  have hshape :
      (['$'] ++ s1 ++ ['$'] ++ s2 ++ ['$'] ++ ps ++ ['$'] ++ s5 ++ ['$'] ++ s6
        : List Char) =
      '$' :: (s1 ++ '$' :: (s2 ++ '$' :: (ps ++ '$' :: (s5 ++ '$' :: s6)))) := by
    simp [List.append_assoc]
  unfold javaSplit
  rw [if_pos (by rw [hshape]; simp)]
  rw [hshape, splitCh_sep_cons, splitCh_append_sep _ _ _ h1,
    splitCh_append_sep _ _ _ h2, splitCh_append_sep _ _ _ hps,
    splitCh_append_sep _ _ _ h5, splitCh_no_sep _ _ h6]
  exact dropTrailingEmpties_last_ne [[], s1, s2, ps, s5] s6 h6ne

theorem parseHash_segments (s1 s2 s5 s6 : List Char)
    (h1 : '$' ∉ s1) (h2 : '$' ∉ s2) (h5 : '$' ∉ s5) (h6 : '$' ∉ s6)
    (m t p : Nat) (hm : m < 2147483648) (ht : t < 2147483648)
    (hp : p < 2147483648) (bs5 bs6 : List Nat)
    (hd5 : b64Decode s5 = some bs5) (hd6 : b64Decode s6 = some bs6)
    (h6ne : s6 ≠ []) :
    parseHash (['$'] ++ s1 ++ ['$'] ++ s2 ++ ['$'] ++ paramSeg m t p ++
        ['$'] ++ s5 ++ ['$'] ++ s6) =
      Except.ok ⟨Int.ofNat m, Int.ofNat t, Int.ofNat p,
        ⟨bs5, Int.ofNat t, Int.ofNat m, Int.ofNat p⟩, bs6⟩ := by
  have hsplit := javaSplit_dollar_segments s1 s2 (paramSeg m t p) s5 s6
    h1 h2 (dollar_not_in_paramSeg m t p) h5 h6 h6ne
  have htoks := javaSplit_comma_paramSeg m t p
  have hsub0 : substring ("m=".data ++ natToChars m) 2 =
      Except.ok (natToChars m) := substring_two 'm' '=' (natToChars m)
  have hsub1 : substring ("t=".data ++ natToChars t) 2 =
      Except.ok (natToChars t) := substring_two 't' '=' (natToChars t)
  have hsub2 : substring ("p=".data ++ natToChars p) 2 =
      Except.ok (natToChars p) := substring_two 'p' '=' (natToChars p)
  simp only [parseHash, hsplit, htoks, arrGet_three, arrGet_four, arrGet_five,
    arrGet_zero, arrGet_one, arrGet_two, ok_bind, hsub0, hsub1, hsub2,
    parseIntE_natToChars m hm, parseIntE_natToChars t ht,
    parseIntE_natToChars p hp, b64DecodeE_of_some s5 bs5 hd5,
    b64DecodeE_of_some s6 bs6 hd6, pure, Except.pure]

theorem parseHash_mkPhc (v m t p : Nat) (hm : m < 2147483648)
    (ht : t < 2147483648) (hp : p < 2147483648) (salt hb : List Nat)
    (hsalt : ∀ b ∈ salt, b < 256) (hhb : ∀ b ∈ hb, b < 256) (hbne : hb ≠ []) :
    parseHash (mkPhc v m t p salt hb) =
      Except.ok ⟨Int.ofNat m, Int.ofNat t, Int.ofNat p,
        ⟨salt, Int.ofNat t, Int.ofNat m, Int.ofNat p⟩, hb⟩ := by
  have hshape : mkPhc v m t p salt hb =
      ['$'] ++ "argon2id".data ++ ['$'] ++ ("v=".data ++ natToChars v) ++
        ['$'] ++ paramSeg m t p ++ ['$'] ++ b64Encode salt ++
        ['$'] ++ b64Encode hb := rfl
  rw [hshape]
  exact parseHash_segments "argon2id".data ("v=".data ++ natToChars v)
    (b64Encode salt) (b64Encode hb)
    (by decide)
    (not_mem_append2 (by decide) (dollar_not_in_natToChars v))
    (b64Encode_no_dollar salt hsalt) (b64Encode_no_dollar hb hhb)
    m t p hm ht hp salt hb
    (b64Decode_b64Encode salt hsalt) (b64Decode_b64Encode hb hhb)
    (b64Encode_ne_nil hb hbne)

theorem verify_mkPhc (kdf : Argon2Params → List Char → Nat → List Nat)
    (hlen : ∀ ps pw n, (kdf ps pw n).length = n)
    (hbyte : ∀ ps pw n, ∀ b ∈ kdf ps pw n, b < 256)
    (v m t p : Nat) (hm : m < 2147483648) (ht : t < 2147483648)
    (hp : p < 2147483648) (salt : List Nat) (hsalt : ∀ b ∈ salt, b < 256)
    (pw : List Char) (L : Nat) (hL : 0 < L) :
    verify kdf
      (mkPhc v m t p salt
        (kdf ⟨salt, Int.ofNat t, Int.ofNat m, Int.ofNat p⟩ pw L)) pw =
      Except.ok true := by
  set stored := kdf ⟨salt, Int.ofNat t, Int.ofNat m, Int.ofNat p⟩ pw L with hstored
  have hsl : stored.length = L := hlen _ _ _
  have hsne : stored ≠ [] := by
    intro hnil
    rw [hnil] at hsl
    simp at hsl
    omega
  unfold verify
  rw [parseHash_mkPhc v m t p hm ht hp salt stored hsalt (hbyte _ _ _) hsne]
  show Except.ok (constantTimeEquals stored
    (kdf ⟨salt, Int.ofNat t, Int.ofNat m, Int.ofNat p⟩ pw stored.length)) =
      Except.ok true
  rw [hsl, ← hstored, constantTimeEquals_self]

theorem except_bind_ok {α β : Type} {x : Except ParseErr α}
    {f : α → Except ParseErr β} {b : β} (h : (x >>= f) = Except.ok b) :
    ∃ a, x = Except.ok a ∧ f a = Except.ok b := by
  cases x with
  | error e => simp [Bind.bind, Except.bind] at h
  | ok a => exact ⟨a, rfl, by simpa [Bind.bind, Except.bind] using h⟩

theorem arrGet_ok_iff {α : Type} (xs : List α) (i : Nat) (v : α) :
    arrGet xs i = Except.ok v ↔ xs.get? i = some v := by
  unfold arrGet
  cases h : xs.get? i <;> simp

theorem arrGet_ok_lt {α : Type} (xs : List α) (i : Nat) (v : α)
    (h : arrGet xs i = Except.ok v) : i < xs.length := by
  have := (arrGet_ok_iff xs i v).mp h
  by_contra hge
  rw [List.get?_eq_none.mpr (by omega)] at this
  exact Option.noConfusion this

theorem arrGet_ok_getD (xs : List (List Char)) (i : Nat) (v : List Char)
    (h : arrGet xs i = Except.ok v) : xs.getD i [] = v := by
  have hg := (arrGet_ok_iff xs i v).mp h
  rw [List.get?_eq_getElem?] at hg
  simp [List.getD_eq_getElem?_getD, hg]

theorem substring_ok_imp (l : List Char) (i : Nat) (r : List Char)
    (h : substring l i = Except.ok r) : i ≤ l.length ∧ r = l.drop i := by
  unfold substring at h
  by_cases hc : i ≤ l.length
  · rw [if_pos hc] at h
    exact ⟨hc, (Except.ok.inj h).symm⟩
  · rw [if_neg hc] at h
    exact Except.noConfusion h

theorem parseIntE_ok_imp (l : List Char) (v : Int)
    (h : parseIntE l = Except.ok v) : parseIntJava l = some v := by
  unfold parseIntE at h
  cases hc : parseIntJava l with
  | none => rw [hc] at h; exact Except.noConfusion h
  | some w => rw [hc] at h; rw [Except.ok.inj h]

theorem b64DecodeE_ok_imp (l : List Char) (bs : List Nat)
    (h : b64DecodeE l = Except.ok bs) : b64Decode l = some bs := by
  unfold b64DecodeE at h
  cases hc : b64Decode l with
  | none => rw [hc] at h; exact Except.noConfusion h
  | some w => rw [hc] at h; rw [Except.ok.inj h]

theorem parseHash_ok_not_malformed (s : List Char) (c : HashComponents)
    (h : parseHash s = Except.ok c) : ¬ specMalformed s := by
  simp only [parseHash] at h
  obtain ⟨pf, hpf, h⟩ := except_bind_ok h
  obtain ⟨tok0, htok0, h⟩ := except_bind_ok h
  obtain ⟨sub0, hsub0, h⟩ := except_bind_ok h
  obtain ⟨mem0, hmem0, h⟩ := except_bind_ok h
  obtain ⟨tok1, htok1, h⟩ := except_bind_ok h
  obtain ⟨sub1, hsub1, h⟩ := except_bind_ok h
  obtain ⟨it1, hit1, h⟩ := except_bind_ok h
  obtain ⟨tok2, htok2, h⟩ := except_bind_ok h
  obtain ⟨sub2, hsub2, h⟩ := except_bind_ok h
  obtain ⟨pl2, hpl2, h⟩ := except_bind_ok h
  obtain ⟨saltSeg, hss, h⟩ := except_bind_ok h
  obtain ⟨salt, hsaltd, h⟩ := except_bind_ok h
  obtain ⟨hashSeg, hhs, h⟩ := except_bind_ok h
  obtain ⟨hb, hhbd, h⟩ := except_bind_ok h
  have hgd3 : (javaSplit '$' s).getD 3 [] = pf := arrGet_ok_getD _ _ _ hpf
  have hgd4 : (javaSplit '$' s).getD 4 [] = saltSeg := arrGet_ok_getD _ _ _ hss
  have hgd5 : (javaSplit '$' s).getD 5 [] = hashSeg := arrGet_ok_getD _ _ _ hhs
  have ht0 : (javaSplit ',' pf).getD 0 [] = tok0 := arrGet_ok_getD _ _ _ htok0
  have ht1 : (javaSplit ',' pf).getD 1 [] = tok1 := arrGet_ok_getD _ _ _ htok1
  have ht2 : (javaSplit ',' pf).getD 2 [] = tok2 := arrGet_ok_getD _ _ _ htok2
  have hnum0 : ¬ tokenNonNumeric tok0 := by
    obtain ⟨hlen, hdrop⟩ := substring_ok_imp _ _ _ hsub0
    have := parseIntE_ok_imp _ _ hmem0
    rw [hdrop] at this
    unfold tokenNonNumeric
    push_neg
    exact ⟨by omega, by simp [this]⟩
  have hnum1 : ¬ tokenNonNumeric tok1 := by
    obtain ⟨hlen, hdrop⟩ := substring_ok_imp _ _ _ hsub1
    have := parseIntE_ok_imp _ _ hit1
    rw [hdrop] at this
    unfold tokenNonNumeric
    push_neg
    exact ⟨by omega, by simp [this]⟩
  have hnum2 : ¬ tokenNonNumeric tok2 := by
    obtain ⟨hlen, hdrop⟩ := substring_ok_imp _ _ _ hsub2
    have := parseIntE_ok_imp _ _ hpl2
    rw [hdrop] at this
    unfold tokenNonNumeric
    push_neg
    exact ⟨by omega, by simp [this]⟩
  have hlen6 : 6 ≤ (javaSplit '$' s).length := by
    have := arrGet_ok_lt _ _ _ hhs
    omega
  have hlen3 : 3 ≤ (javaSplit ',' pf).length := by
    have := arrGet_ok_lt _ _ _ htok2
    omega
  intro hmal
  unfold specMalformed at hmal
  rcases hmal with hx | hx | hx | hx | hx | hx | hx
  · omega
  · rw [hgd3] at hx; omega
  · rw [hgd3, ht0] at hx; exact hnum0 hx
  · rw [hgd3, ht1] at hx; exact hnum1 hx
  · rw [hgd3, ht2] at hx; exact hnum2 hx
  · rw [hgd4] at hx
    rw [b64DecodeE_ok_imp _ _ hsaltd] at hx
    exact Option.noConfusion hx
  · rw [hgd5] at hx
    rw [b64DecodeE_ok_imp _ _ hhbd] at hx
    exact Option.noConfusion hx

end Argon2Hasher

/-- C1: for every non-empty password, every parameter triple (memory,
iterations, parallelism) and every salt, verifying an encoded hash built
over those parameters succeeds: `verify` re-derives the key with the
parameters and salt parsed out of the string itself, so in particular
`verify (hash P) P` is true and hashes produced under older parameter
values still verify. -/
theorem verify_selfdescribing_roundtrip
    (kdf : Argon2Hasher.Argon2Params → List Char → Nat → List Nat)
    (hlen : ∀ ps pw n, (kdf ps pw n).length = n)
    (hbyte : ∀ ps pw n, ∀ b ∈ kdf ps pw n, b < 256)
    (pw : List Char) (hpw : pw ≠ [])
    (m t p : Nat) (hm : m < 2147483648) (ht : t < 2147483648)
    (hp : p < 2147483648)
    (salt : List Nat) (hsalt : ∀ b ∈ salt, b < 256)
    (L : Nat) (hL : 0 < L) :
    Argon2Hasher.verify kdf
      (Argon2Hasher.mkPhc 19 m t p salt
        (kdf ⟨salt, Int.ofNat t, Int.ofNat m, Int.ofNat p⟩ pw L)) pw =
      Except.ok true ∧
    Argon2Hasher.verify kdf (Argon2Hasher.hash kdf salt pw) pw =
      Except.ok true := by
  constructor
  · exact Argon2Hasher.verify_mkPhc kdf hlen hbyte 19 m t p hm ht hp
      salt hsalt pw L hL
  · exact Argon2Hasher.verify_mkPhc kdf hlen hbyte 19 65536 3 4
      (by decide) (by decide) (by decide) salt hsalt pw 32 (by decide)

/-- Witness for C1 at a concrete key-derivation function, password,
parameters and salt. -/
theorem verify_selfdescribing_roundtrip_witness :
    Argon2Hasher.verify (fun _ _ n => List.replicate n 0)
      (Argon2Hasher.mkPhc 19 1 2 3 [5] (List.replicate 4 0)) "pw".data =
      Except.ok true ∧
    Argon2Hasher.verify (fun _ _ n => List.replicate n 0)
      (Argon2Hasher.hash (fun _ _ n => List.replicate n 0) [5] "pw".data)
      "pw".data =
      Except.ok true :=
  verify_selfdescribing_roundtrip (fun _ _ n => List.replicate n 0)
    (fun _ _ _ => List.length_replicate _ _)
    (fun _ _ n b hb => by
      have := List.eq_of_mem_replicate hb
      omega)
    "pw".data (by decide) 1 2 3 (by decide) (by decide) (by decide)
    [5] (by decide) 4 (by decide)

/-- C2: `constantTimeEquals` accumulates the bitwise OR of the XOR of every
byte pair over the full zip of the two arrays whenever the lengths match,
and returns true exactly when the arrays are equal. -/
theorem constantTimeEquals_spec (e a : List Nat) :
    (Argon2Hasher.constantTimeEquals e a = true ↔ e = a) ∧
    (Argon2Hasher.constantTimeEquals e a =
      (decide (e.length = a.length) &&
        (((e.zip a).foldl (fun r q => r ||| (q.1 ^^^ q.2)) 0) == 0))) := by
  constructor
  · exact Argon2Hasher.constantTimeEquals_eq_true_iff e a
  · unfold Argon2Hasher.constantTimeEquals
    by_cases h : e.length = a.length
    · rw [if_neg (by simp [h])]
      simp [h]
    · rw [if_pos (by simpa using h)]
      simp [h]

/-- C3 (amended): for every encoded-hash string that is structurally
malformed in the sense of `specMalformed` — fewer than six dollar-separated
segments after Java's trailing-empty-dropping split, fewer than three
comma-separated cost tokens, a non-numeric cost parameter, or invalid
base64 in the salt or hash segment — `verify` raises a malformed-input
error and never returns a boolean. (The unamended claim also counted a
string with more than six segments as having a wrong segment count, but the
code accepts extra segments and ignores them.) -/
theorem verify_malformed_raises
    (kdf : Argon2Hasher.Argon2Params → List Char → Nat → List Nat)
    (s pw : List Char) (h : Argon2Hasher.specMalformed s) :
    ∃ e, Argon2Hasher.verify kdf s pw = Except.error e := by
  cases hp : Argon2Hasher.parseHash s with
  | error e =>
    exact ⟨e, by unfold Argon2Hasher.verify; rw [hp]⟩
  | ok c =>
    exact absurd h (Argon2Hasher.parseHash_ok_not_malformed s c hp)

/-- Witness for C3 at the spec's own example input `not-a-hash`. -/
theorem verify_malformed_raises_witness :
    ∃ e, Argon2Hasher.verify (fun _ _ n => List.replicate n 0)
      "not-a-hash".data "x".data = Except.error e :=
  verify_malformed_raises (fun _ _ n => List.replicate n 0)
    "not-a-hash".data "x".data (Or.inl (by decide))

/-- C3 counterexample: a string with seven dollar-separated segments has a
wrong segment count, yet `verify` parses it (ignoring the extra segment)
and returns the boolean false instead of raising a malformed-input error. -/
theorem verify_extra_segments_no_error :
    Argon2Hasher.verify (fun _ _ n => List.replicate n 1)
      "$argon2id$v=19$m=65536,t=3,p=4$AAAA$AAAA$x".data "x".data =
      Except.ok false := by
  rfl

/-- C4 (code evaluated at the failing input): `verify` performs no null or
empty precondition check; with an empty password it runs the key
derivation and returns a boolean, although the claim (and the method's own
documentation, and the repository's second `Argon2Hasher` draft) promise a
precondition error raised before any cryptographic work. -/
theorem verify_empty_password_returns_ok :
    Argon2Hasher.verify (fun _ _ n => List.replicate n 0)
      (Argon2Hasher.encodeHash [0, 0, 0] [0, 0, 0]) [] = Except.ok true := by
  rfl

/-- C5 (amended): round-trip holds for hashes carrying the current policy
parameters: parsing `encodeHash salt hash` succeeds and re-encoding the
parsed salt and hash bytes yields the identical string. (The unamended
claim asserted this for arbitrary parameter values, but `encodeHash`
always writes the current policy constants, so any other parameters are
not reproduced.) -/
theorem parse_reencode_roundtrip_policy (salt hb : List Nat)
    (hsalt : ∀ b ∈ salt, b < 256) (hhb : ∀ b ∈ hb, b < 256)
    (hne : hb ≠ []) :
    ∃ c : Argon2Hasher.HashComponents,
      Argon2Hasher.parseHash (Argon2Hasher.encodeHash salt hb) =
        Except.ok c ∧
      c.params.salt = salt ∧ c.hash = hb ∧
      Argon2Hasher.encodeHash c.params.salt c.hash =
        Argon2Hasher.encodeHash salt hb := by
  refine ⟨⟨Int.ofNat 65536, Int.ofNat 3, Int.ofNat 4,
    ⟨salt, Int.ofNat 3, Int.ofNat 65536, Int.ofNat 4⟩, hb⟩, ?_, rfl, rfl, rfl⟩
  exact Argon2Hasher.parseHash_mkPhc 19 65536 3 4 (by decide) (by decide)
    (by decide) salt hb hsalt hhb hne

/-- Witness for C5 at concrete salt and hash bytes. -/
theorem parse_reencode_roundtrip_policy_witness :
    ∃ c : Argon2Hasher.HashComponents,
      Argon2Hasher.parseHash (Argon2Hasher.encodeHash [1, 2, 3] [4, 5, 6]) =
        Except.ok c ∧
      c.params.salt = [1, 2, 3] ∧ c.hash = [4, 5, 6] ∧
      Argon2Hasher.encodeHash c.params.salt c.hash =
        Argon2Hasher.encodeHash [1, 2, 3] [4, 5, 6] :=
  parse_reencode_roundtrip_policy [1, 2, 3] [4, 5, 6]
    (by decide) (by decide) (by decide)

/-- C5 counterexample: a well-formed hash whose parameters differ from the
current policy parses fine, but re-encoding its salt and hash bytes with
`encodeHash` produces a different string, because `encodeHash` writes the
policy constants rather than the parsed parameters. -/
theorem parse_reencode_mismatch :
    Argon2Hasher.parseHash "$argon2id$v=19$m=1,t=1,p=1$AAAA$AAAA".data =
      Except.ok ⟨1, 1, 1, ⟨[0, 0, 0], 1, 1, 1⟩, [0, 0, 0]⟩ ∧
    Argon2Hasher.encodeHash [0, 0, 0] [0, 0, 0] ≠
      "$argon2id$v=19$m=1,t=1,p=1$AAAA$AAAA".data := by
  constructor
  · rfl
  · decide

/-- C6 (code evaluated at the failing input): `needsRehash` returns true
for a hash just produced under the current policy, because `parseHash`
passes the parsed memory and iteration values positionally into the
`HashComponents` record whose first two fields are declared in the order
iterations, memory — so `needsRehash` compares the parsed iteration count
(3) against `MEMORY` (65536) and the parsed memory cost (65536) against
`ITERATIONS` (3), both of which differ. -/
theorem needsRehash_fresh_hash_true :
    Argon2Hasher.needsRehash (Argon2Hasher.encodeHash [0, 0, 0] [1, 2, 3]) =
      Except.ok true := by
  rfl

theorem Credential.validate_id_none (c : Credential) (hid : c.id = none) :
    Credential.validate c = Except.error "Credential ID cannot be null" := by
  unfold Credential.validate
  rw [hid]

theorem Credential.validate_email_none (c : Credential) (i : UUID)
    (hid : c.id = some i) (hem : c.email = none) :
    Credential.validate c = Except.error "Email cannot be null" := by
  unfold Credential.validate
  rw [hid, hem]

theorem Credential.validate_some_some (c : Credential) (i : UUID) (e0 : String)
    (hid : c.id = some i) (hem : c.email = some e0) :
    Credential.validate c =
      (if Credential.isBlank e0 then Except.error "Email cannot be blank"
       else if c.authProvider = AuthProvider.LOCAL then
         if Credential.absentOrBlank c.passwordHash then
           Except.error "Password hash is required for LOCAL authentication"
         else Except.ok c
       else
         if Credential.absentOrBlank c.authSubject then
           Except.error "Auth subject is required for OAuth authentication"
         else Except.ok c) := by
  unfold Credential.validate
  rw [hid, hem]

/-- C7: `validate` succeeds, returning the credential unchanged, exactly
when the id is present, the email is present and non-blank, a local
credential has a present non-blank password hash, and a non-local
credential has a present non-blank auth subject; each violated rule is
reported with its own error message. Validation happens only through this
explicit call — in the model, as in the source, the constructor is total
and enforces nothing. -/
theorem credential_validate_rules (c : Credential) :
    (Credential.validate c = Except.ok c ↔
      (c.id ≠ none ∧
        (∃ e, c.email = some e ∧ Credential.isBlank e = false) ∧
        (c.authProvider = AuthProvider.LOCAL →
          Credential.absentOrBlank c.passwordHash = false) ∧
        (c.authProvider ≠ AuthProvider.LOCAL →
          Credential.absentOrBlank c.authSubject = false))) ∧
    (∀ r, Credential.validate c = Except.ok r → r = c) ∧
    (Credential.validate c = Except.ok c ∨
      ∃ msg, Credential.validate c = Except.error msg) ∧
    (c.id = none →
      Credential.validate c = Except.error "Credential ID cannot be null") ∧
    (c.id ≠ none → c.email = none →
      Credential.validate c = Except.error "Email cannot be null") ∧
    (∀ e, c.id ≠ none → c.email = some e → Credential.isBlank e = true →
      Credential.validate c = Except.error "Email cannot be blank") ∧
    (∀ e, c.id ≠ none → c.email = some e → Credential.isBlank e = false →
      c.authProvider = AuthProvider.LOCAL →
      Credential.absentOrBlank c.passwordHash = true →
      Credential.validate c =
        Except.error "Password hash is required for LOCAL authentication") ∧
    (∀ e, c.id ≠ none → c.email = some e → Credential.isBlank e = false →
      c.authProvider ≠ AuthProvider.LOCAL →
      Credential.absentOrBlank c.authSubject = true →
      Credential.validate c =
        Except.error "Auth subject is required for OAuth authentication") := by
  cases hid : c.id with
  | none =>
    rw [Credential.validate_id_none c hid]
    refine ⟨?_, ?_, ?_, ?_, ?_, ?_, ?_, ?_⟩
    · constructor
      · intro h
        exact Except.noConfusion h
      · rintro ⟨hne, -⟩
        exact absurd rfl hne
    · intro r h
      exact Except.noConfusion h
    · exact Or.inr ⟨_, rfl⟩
    · intro _
      rfl
    · intro hne
      exact absurd rfl hne
    · intro e hne
      exact absurd rfl hne
    · intro e hne
      exact absurd rfl hne
    · intro e hne
      exact absurd rfl hne
  | some i =>
    cases hem : c.email with
    | none =>
      rw [Credential.validate_email_none c i hid hem]
      refine ⟨?_, ?_, ?_, ?_, ?_, ?_, ?_, ?_⟩
      · constructor
        · intro h
          exact Except.noConfusion h
        · rintro ⟨-, ⟨e, he, -⟩, -⟩
          exact Option.noConfusion he
      · intro r h
        exact Except.noConfusion h
      · exact Or.inr ⟨_, rfl⟩
      · intro hx
        exact Option.noConfusion hx
      · intro _ _
        rfl
      · intro e _ he
        exact Option.noConfusion he
      · intro e _ he
        exact Option.noConfusion he
      · intro e _ he
        exact Option.noConfusion he
    | some e0 =>
      rw [Credential.validate_some_some c i e0 hid hem]
      by_cases hbl : Credential.isBlank e0 = true
      · rw [if_pos hbl]
        refine ⟨?_, ?_, ?_, ?_, ?_, ?_, ?_, ?_⟩
        · constructor
          · intro h
            exact Except.noConfusion h
          · rintro ⟨-, ⟨e, he, hbe⟩, -⟩
            rw [Option.some.inj he] at hbl
            rw [hbl] at hbe
            exact Bool.noConfusion hbe
        · intro r h
          exact Except.noConfusion h
        · exact Or.inr ⟨_, rfl⟩
        · intro hx
          exact Option.noConfusion hx
        · intro _ hx
          exact Option.noConfusion hx
        · intro e _ _ _
          rfl
        · intro e _ he hbe
          rw [Option.some.inj he] at hbl
          rw [hbl] at hbe
          exact Bool.noConfusion hbe
        · intro e _ he hbe
          rw [Option.some.inj he] at hbl
          rw [hbl] at hbe
          exact Bool.noConfusion hbe
      · rw [if_neg hbl]
        have hblf : Credential.isBlank e0 = false := Bool.eq_false_iff.mpr hbl
        by_cases hloc : c.authProvider = AuthProvider.LOCAL
        · rw [if_pos hloc]
          by_cases hph : Credential.absentOrBlank c.passwordHash = true
          · rw [if_pos hph]
            refine ⟨?_, ?_, ?_, ?_, ?_, ?_, ?_, ?_⟩
            · constructor
              · intro h
                exact Except.noConfusion h
              · rintro ⟨-, -, hl, -⟩
                rw [hl hloc] at hph
                exact Bool.noConfusion hph
            · intro r h
              exact Except.noConfusion h
            · exact Or.inr ⟨_, rfl⟩
            · intro hx
              exact Option.noConfusion hx
            · intro _ hx
              exact Option.noConfusion hx
            · intro e _ he hbe
              rw [Option.some.inj he] at hbl
              exact absurd hbe hbl
            · intro e _ _ _ _ _
              rfl
            · intro e _ _ _ hnl
              exact absurd hloc hnl
          · rw [if_neg hph]
            have hphf : Credential.absentOrBlank c.passwordHash = false :=
              Bool.eq_false_iff.mpr hph
            refine ⟨?_, ?_, ?_, ?_, ?_, ?_, ?_, ?_⟩
            · constructor
              · intro _
                refine ⟨by simp, ⟨e0, rfl, hblf⟩, fun _ => hphf,
                  fun hnl => absurd hloc hnl⟩
              · intro _
                rfl
            · intro r h
              exact (Except.ok.inj h).symm
            · exact Or.inl rfl
            · intro hx
              exact Option.noConfusion hx
            · intro _ hx
              exact Option.noConfusion hx
            · intro e _ he hbe
              rw [Option.some.inj he] at hbl
              exact absurd hbe hbl
            · intro e _ _ _ _ hx
              rw [hx] at hphf
              exact Bool.noConfusion hphf
            · intro e _ _ _ hnl
              exact absurd hloc hnl
        · rw [if_neg hloc]
          by_cases hsb : Credential.absentOrBlank c.authSubject = true
          · rw [if_pos hsb]
            refine ⟨?_, ?_, ?_, ?_, ?_, ?_, ?_, ?_⟩
            · constructor
              · intro h
                exact Except.noConfusion h
              · rintro ⟨-, -, -, hnl⟩
                rw [hnl hloc] at hsb
                exact Bool.noConfusion hsb
            · intro r h
              exact Except.noConfusion h
            · exact Or.inr ⟨_, rfl⟩
            · intro hx
              exact Option.noConfusion hx
            · intro _ hx
              exact Option.noConfusion hx
            · intro e _ he hbe
              rw [Option.some.inj he] at hbl
              exact absurd hbe hbl
            · intro e _ _ _ hl
              exact absurd hl hloc
            · intro e _ _ _ _ _
              rfl
          · rw [if_neg hsb]
            have hsbf : Credential.absentOrBlank c.authSubject = false :=
              Bool.eq_false_iff.mpr hsb
            refine ⟨?_, ?_, ?_, ?_, ?_, ?_, ?_, ?_⟩
            · constructor
              · intro _
                refine ⟨by simp, ⟨e0, rfl, hblf⟩,
                  fun hl => absurd hl hloc, fun _ => hsbf⟩
              · intro _
                rfl
            · intro r h
              exact (Except.ok.inj h).symm
            · exact Or.inl rfl
            · intro hx
              exact Option.noConfusion hx
            · intro _ hx
              exact Option.noConfusion hx
            · intro e _ he hbe
              rw [Option.some.inj he] at hbl
              exact absurd hbe hbl
            · intro e _ _ _ hl
              exact absurd hl hloc
            · intro e _ _ _ _ hx
              rw [hx] at hsbf
              exact Bool.noConfusion hsbf


/-- Witness for C7: the rules evaluated at a concrete valid local
credential. -/
theorem credential_validate_rules_witness :
    Credential.validate sampleLocalCredential =
      Except.ok sampleLocalCredential :=
  (credential_validate_rules sampleLocalCredential).1.mpr
    ⟨by decide, ⟨"user@example.com", rfl, by decide⟩,
      fun _ => by decide, fun h => absurd rfl h⟩

/-- C8: `canLogin` is true exactly when the status is `ACTIVE` and the
deleted timestamp is absent; consequently a credential soft-deleted with
`asSoftDeleted` (which sets status `DELETED` and the deleted timestamp)
can never log in. -/
theorem credential_canLogin_spec (c : Credential) :
    (Credential.canLogin c = true ↔
      c.status = CredentialStatus.ACTIVE ∧ c.deletedAt = none) ∧
    (∀ now, Credential.canLogin (Credential.asSoftDeleted c now) = false) := by
  constructor
  · unfold Credential.canLogin
    simp
  · intro now
    unfold Credential.canLogin Credential.asSoftDeleted
    simp

/-- C9 (amended): `parseHash` never inspects the algorithm-tag or version
segments — for every string of six dollar-separated segments whose fourth
segment is a well-formed `m=,t=,p=` parameter list and whose fifth and
sixth segments are valid base64, with the sixth segment nonempty, parsing
succeeds no matter what the first two segments contain, and `verify` and
`needsRehash` therefore accept the string as well. (The unamended claim
allowed an empty sixth segment — the empty string is valid base64 — but
Java's split drops the trailing empty segment, so parsing such a string
raises an index error instead of succeeding.) -/
theorem parseHash_ignores_first_segments (s1 s2 s5 s6 : List Char)
    (h1 : '$' ∉ s1) (h2 : '$' ∉ s2) (h5 : '$' ∉ s5) (h6 : '$' ∉ s6)
    (m t p : Nat) (hm : m < 2147483648) (ht : t < 2147483648)
    (hp : p < 2147483648) (bs5 bs6 : List Nat)
    (hd5 : Argon2Hasher.b64Decode s5 = some bs5)
    (hd6 : Argon2Hasher.b64Decode s6 = some bs6) (h6ne : s6 ≠ []) :
    Argon2Hasher.parseHash
        (['$'] ++ s1 ++ ['$'] ++ s2 ++ ['$'] ++ Argon2Hasher.paramSeg m t p ++
          ['$'] ++ s5 ++ ['$'] ++ s6) =
      Except.ok ⟨Int.ofNat m, Int.ofNat t, Int.ofNat p,
        ⟨bs5, Int.ofNat t, Int.ofNat m, Int.ofNat p⟩, bs6⟩ ∧
    (∀ kdf pw, ∃ b, Argon2Hasher.verify kdf
        (['$'] ++ s1 ++ ['$'] ++ s2 ++ ['$'] ++ Argon2Hasher.paramSeg m t p ++
          ['$'] ++ s5 ++ ['$'] ++ s6) pw = Except.ok b) ∧
    (∃ b, Argon2Hasher.needsRehash
        (['$'] ++ s1 ++ ['$'] ++ s2 ++ ['$'] ++ Argon2Hasher.paramSeg m t p ++
          ['$'] ++ s5 ++ ['$'] ++ s6) = Except.ok b) := by
  have hparse := Argon2Hasher.parseHash_segments s1 s2 s5 s6 h1 h2 h5 h6
    m t p hm ht hp bs5 bs6 hd5 hd6 h6ne
  refine ⟨hparse, ?_, ?_⟩
  · intro kdf pw
    unfold Argon2Hasher.verify
    rw [hparse]
    exact ⟨_, rfl⟩
  · unfold Argon2Hasher.needsRehash
    rw [hparse]
    exact ⟨_, rfl⟩

/-- Witness for C9: a hash string carrying a wrong algorithm tag and
arbitrary version text parses as if it were a normal argon2id hash. -/
theorem parseHash_ignores_first_segments_witness :
    Argon2Hasher.parseHash
        (['$'] ++ "wrongalgo".data ++ ['$'] ++ "v=banana".data ++ ['$'] ++
          Argon2Hasher.paramSeg 7 8 9 ++ ['$'] ++ "AAAA".data ++ ['$'] ++
          "AQID".data) =
      Except.ok ⟨Int.ofNat 7, Int.ofNat 8, Int.ofNat 9,
        ⟨[0, 0, 0], Int.ofNat 8, Int.ofNat 7, Int.ofNat 9⟩, [1, 2, 3]⟩ :=
  (parseHash_ignores_first_segments "wrongalgo".data "v=banana".data
    "AAAA".data "AQID".data (by decide) (by decide) (by decide) (by decide)
    7 8 9 (by decide) (by decide) (by decide) [0, 0, 0] [1, 2, 3]
    (by rfl) (by rfl) (by decide)).1

/-- C9 counterexample: the sixth dollar-separated segment of this string is
empty, and the empty string is valid base64 — yet `parseHash` raises an
index error, because Java's split drops the trailing empty segment. -/
theorem parseHash_empty_sixth_segment_error :
    Argon2Hasher.parseHash "$argon2id$v=19$m=1,t=1,p=1$AAAA$".data =
      Except.error Argon2Hasher.ParseErr.indexOutOfBounds ∧
    Argon2Hasher.b64Decode [] = some [] ∧
    "$argon2id$v=19$m=1,t=1,p=1$AAAA$".data =
      ['$'] ++ "argon2id".data ++ ['$'] ++ "v=19".data ++ ['$'] ++
        "m=1,t=1,p=1".data ++ ['$'] ++ "AAAA".data ++ ['$'] ++
        ([] : List Char) := by
  refine ⟨rfl, rfl, by decide⟩

/-- C10: `withPasswordHash` validates nothing — for every credential and
every replacement value, including null and the blank string, it returns a
new instance whose password hash is the given value and whose `updatedAt`
is bumped, with every other field unchanged; in particular a valid local
credential transitions to an instance that fails `validate`. -/
theorem credential_withPasswordHash_frame (c : Credential)
    (h : Option String) (now : Instant) :
    (Credential.withPasswordHash c h now).passwordHash = h ∧
    (Credential.withPasswordHash c h now).updatedAt = some now ∧
    (Credential.withPasswordHash c h now).id = c.id ∧
    (Credential.withPasswordHash c h now).email = c.email ∧
    (Credential.withPasswordHash c h now).authProvider = c.authProvider ∧
    (Credential.withPasswordHash c h now).authSubject = c.authSubject ∧
    (Credential.withPasswordHash c h now).mfaEnabled = c.mfaEnabled ∧
    (Credential.withPasswordHash c h now).status = c.status ∧
    (Credential.withPasswordHash c h now).emailVerifiedAt =
      c.emailVerifiedAt ∧
    (Credential.withPasswordHash c h now).lastLoginAt = c.lastLoginAt ∧
    (Credential.withPasswordHash c h now).createdAt = c.createdAt ∧
    (Credential.withPasswordHash c h now).deletedAt = c.deletedAt ∧
    Credential.validate sampleLocalCredential =
      Except.ok sampleLocalCredential ∧
    Credential.validate
        (Credential.withPasswordHash sampleLocalCredential (some "") 7) =
      Except.error "Password hash is required for LOCAL authentication" :=
  ⟨rfl, rfl, rfl, rfl, rfl, rfl, rfl, rfl, rfl, rfl, rfl, rfl, rfl, rfl⟩
